import Mathlib

/-!
Verification of the go-webdav server core: path inclusion, the lock
manager, the If-header condition language, and the method dispatcher.
Each definition is a shallow embedding of the corresponding Go function;
times and durations are modelled as `Int` nanoseconds, Go maps as
association lists keyed by lock token.
-/

namespace GoWebdav

/-! ## Path utilities (package `path`) -/

/-- Faithful model of Go `strings.Split(s, sep)` for a single-character
separator: splits around each occurrence of `sep`, always returning at
least one (possibly empty) piece. -/
def splitOnChar (sep : Char) : List Char → List (List Char)
  | [] => [[]]
  | c :: cs =>
    let r := splitOnChar sep cs
    if c == sep then [] :: r
    else
      match r with
      | [] => [[c]]
      | h :: t => (c :: h) :: t

theorem splitOnChar_ne_nil (sep : Char) (cs : List Char) : splitOnChar sep cs ≠ [] := by
  cases cs with
  | nil => simp [splitOnChar]
  | cons c cs =>
    simp only [splitOnChar]
    split
    · simp
    · cases h : splitOnChar sep cs <;> simp

/-- Model of Go `strings.HasPrefix` on the character level. -/
def strHasPfx (s pre : String) : Bool := pre.toList.isPrefixOf s.toList

/-- Model of Go `strings.HasSuffix` on the character level. -/
def strHasSfx (s suf : String) : Bool := suf.toList.isSuffixOf s.toList

/-- Model of the Go slice expression `s[n:]`. -/
def strDropN (s : String) (n : Nat) : String := String.mk (s.toList.drop n)

/-- Model of Go `len(s)` (characters stand in for bytes). -/
def strLen (s : String) : Nat := s.toList.length

/-- Join a list of strings with a separator (Go `strings.Join`). -/
def joinWith (sep : String) : List String → String
  | [] => ""
  | h :: t => t.foldl (fun acc x => acc ++ sep ++ x) h

/-- Modelled from the spec: the Go standard library function `path.Clean`
(not part of this repository), used by `Included` on the relative
remainder. Multiple slashes are collapsed, `.` elements dropped, `..`
elements cancel the preceding element (and are dropped at a root), a
rooted path keeps its leading slash, and the empty result becomes `"."`. -/
def pathClean (s : String) : String :=
  let rooted := strHasPfx s "/"
  let segs := (splitOnChar '/' s.toList).map (fun cs => String.mk cs)
  let step := fun (stack : List String) (seg : String) =>
    if seg = "" ∨ seg = "." then stack
    else if seg = ".." then
      match stack with
      | top :: rest => if top = ".." then seg :: stack else rest
      | [] => if rooted then [] else [seg]
    else seg :: stack
  let stack := segs.foldl step []
  let body := joinWith "/" stack.reverse
  if rooted then "/" ++ body
  else if body = "" then "." else body

/-- Embeds `InTree` from `path`: `path == subtree` or `path` has `subtree + "/"`
as a prefix (a trailing slash on `subtree` is not doubled). -/
def InTree (path subtree : String) : Bool :=
  if path == subtree then true
  else
    let subtree := if !(strHasSfx subtree "/") then subtree ++ "/" else subtree
    strHasPfx path subtree

/-- Embeds `Included` from `path`: depth-restricted inclusion of `fn` in
`subtree`, returning the cleaned remainder on success. The segment count
`fd` is the length of `strings.Split` of the cleaned remainder. -/
def Included (fn subtree : String) (depth : Int) : String × Bool :=
  if fn == subtree then ("", true)
  else if !(InTree fn subtree) then ("", false)
  else
    let fn' := pathClean (strDropN fn (strLen subtree))
    let fd : Int := ((splitOnChar '/' fn'.toList).length : Int)
    if 0 ≤ depth ∧ depth < fd then ("", false)
    else (fn', true)

example : InTree "/foo/bar" "/" = true := by decide
example : InTree "/foo/zoo" "/foo/bar" = false := by decide
example : Included "/" "/" 0 = ("", true) := by decide
example : Included "/foo" "/" 0 = ("", false) := by decide
example : Included "/foo" "/" 1 = ("foo", true) := by decide
example : Included "/foo/bar" "/" 1 = ("", false) := by decide
example : Included "/a/b" "/a" 1 = ("", false) := by decide
example : Included "/a/b" "/a" 2 = ("/b", true) := by decide
example : Included "/a/b" "/a" (-1) = ("/b", true) := by decide

/-! ## Lock manager (`lock.go`)

Times (`time.Time`) and durations (`time.Duration`) are `Int`
nanoseconds; the token-keyed Go map `lockmaster.locks` is an association
list of locks. Each manager operation takes the current wall-clock time
`t` (Go's `time.Now()`) as an explicit argument and returns its result
together with the updated lock table. -/

def nsecond : Int := 1000000000

def nminute : Int := 60 * nsecond

def minLockDuration : Int := 20 * nsecond

def maxLockDuration : Int := 5 * nminute

structure Lock where
  token : String
  depth : Int
  owner : String
  duration : Int
  modified : Int
  path : String
deriving DecidableEq, Repr

/-- Embeds `lock.expired`: `time.Now().After(l.modified.Add(l.duration))`. -/
def Lock.expired (t : Int) (l : Lock) : Bool := l.modified + l.duration < t

abbrev LMState := List Lock

/-- Embeds `lm.locks[t]` map lookup. -/
def lookupTok (st : LMState) (tok : String) : Option Lock :=
  st.find? (fun l => l.token == tok)

/-- Embeds `delete(lm.locks, t)` map deletion (no-op when the key is absent). -/
def eraseTok (st : LMState) (tok : String) : LMState :=
  st.eraseP (fun l => l.token == tok)

/-- In-place mutation of the lock stored under `tok`. -/
def replaceTok (st : LMState) (tok : String) (l' : Lock) : LMState :=
  st.map (fun x => if x.token == tok then l' else x)

/-- Embeds `lm.locks[l.token] = l` map insertion. -/
def putTok (st : LMState) (l : Lock) : LMState :=
  l :: eraseTok st l.token

/-- The duration clamp performed by `createLock` and `refreshLock`:
raise below `minLockDuration`, cap above `maxLockDuration`. -/
def clampDur (d : Int) : Int :=
  let d := if d < minLockDuration then minLockDuration else d
  if d > maxLockDuration then maxLockDuration else d

/-- Embeds `lockmaster.unlock`: unconditionally remove the token. -/
def unlockOp (st : LMState) (tok : String) : LMState := eraseTok st tok

/-- Embeds `lockmaster.isLocked`: the token must map to an unexpired lock whose
scope includes `p`; a missing or expired entry is deleted and reports
`false`. -/
def isLockedOp (t : Int) (p tok : String) (st : LMState) : Bool × LMState :=
  match lookupTok st tok with
  | none => (false, eraseTok st tok)
  | some l =>
    if l.expired t then (false, eraseTok st tok)
    else ((Included p l.path l.depth).2, st)

/-- The pure result of `isLocked` (its lazy deletions do not change any
`isLocked` result at the same instant, as proved below). -/
def isLockedB (t : Int) (p tok : String) (st : LMState) : Bool :=
  match lookupTok st tok with
  | none => false
  | some l => !l.expired t && (Included p l.path l.depth).2

/-- Embeds `lockmaster.getLockForPath`: scan the table, lazily deleting expired
locks, and return the first live lock whose scope includes `p`. -/
def getLockForPathOp (t : Int) (p : String) : LMState → Option Lock × LMState
  | [] => (none, [])
  | l :: ls =>
    if l.expired t then getLockForPathOp t p ls
    else if (Included p l.path l.depth).2 then (some l, l :: ls)
    else
      let r := getLockForPathOp t p ls
      (r.1, l :: r.2)

/-- The conflict scan of `createLock`: walk the table, deleting expired
locks; fail as soon as the new request at `(p, depth)` falls inside an
existing lock's scope or would engulf an existing lock's root. On
failure the unvisited tail (including its expired entries) is kept, as
the Go loop returns early. -/
def createScan (t : Int) (p : String) (depth : Int) : LMState → LMState × Bool
  | [] => ([], true)
  | l :: ls =>
    if l.expired t then createScan t p depth ls
    else if (Included p l.path l.depth).2 then (l :: ls, false)
    else if (Included l.path p depth).2 then (l :: ls, false)
    else
      let r := createScan t p depth ls
      (l :: r.1, r.2)

/-- Embeds `lockmaster.createLock`. The fresh token produced by `generateToken`
is passed in as `tok`. -/
def createLockOp (t : Int) (tok owner path : String) (depth duration : Int)
    (st : LMState) : Option Lock × LMState :=
  let duration := clampDur duration
  let r := createScan t path depth st
  if r.2 then
    let l : Lock :=
      { token := tok, depth := depth, owner := owner,
        duration := duration, modified := t, path := path }
    (some l, putTok r.1 l)
  else (none, r.1)

/-- Embeds `lockmaster.refreshLock`: clamp, look up by token (missing or
expired fails, an expired entry is deleted), require the refresh target
to lie inside the lock's scope, then update the duration and touch the
modification time. -/
def refreshLockOp (t : Int) (tok path : String) (duration : Int)
    (st : LMState) : Option Lock × LMState :=
  let duration := clampDur duration
  match lookupTok st tok with
  | none => (none, st)
  | some l =>
    if l.expired t then (none, eraseTok st tok)
    else if !(Included path l.path l.depth).2 then (none, st)
    else
      let l' := { l with duration := duration, modified := t }
      (some l', replaceTok st tok l')

/-- With a negative (infinite) depth, inclusion coincides with tree
membership. -/
theorem included_neg (q p : String) (d : Int) (hd : d < 0) :
    (Included q p d).2 = InTree q p := by
  unfold Included
  cases hb : (q == p) with
  | true =>
    have hqp : q = p := by simpa using hb
    subst hqp
    simp [InTree]
  | false =>
    simp only [hb, Bool.false_eq_true, if_false]
    cases hIT : InTree q p with
    | false => simp
    | true =>
      simp only [hIT, Bool.not_true, Bool.false_eq_true, if_false]
      split
      · rename_i hcond
        exact absurd hcond.1 (by omega)
      · rfl

/-- With depth 0, inclusion holds exactly on the subtree root itself. -/
theorem included_zero (q p : String) : (Included q p 0).2 = (q == p) := by
  unfold Included
  cases hb : (q == p) with
  | true => simp [hb]
  | false =>
    simp only [hb, Bool.false_eq_true, if_false]
    cases hIT : InTree q p with
    | false => simp
    | true =>
      simp only [hIT, Bool.not_true, Bool.false_eq_true, if_false]
      split
      · rfl
      · rename_i hcond
        exfalso
        apply hcond
        refine ⟨le_refl 0, ?_⟩
        have hne := splitOnChar_ne_nil '/' (pathClean (strDropN q (strLen p))).toList
        have hlen : 1 ≤ (splitOnChar '/' (pathClean (strDropN q (strLen p))).toList).length := by
          cases hsp : splitOnChar '/' (pathClean (strDropN q (strLen p))).toList with
          | nil => exact absurd hsp hne
          | cons a l => simp
        exact_mod_cast hlen

/-- C1: the claim's example fails on the code. For the cleaned paths
`/a/b` and `/a` there is one path segment between them, so with depth 1
the claim says `Included` returns true; the code instead cleans the
remainder to `"/b"`, whose `strings.Split` has length 2 (the leading
empty piece is counted), exceeds the depth, and yields `("", false)`. -/
theorem included_depth_one_counts_leading_slash :
    Included "/a/b" "/a" 1 = ("", false) ∧
    (strDropN "/a/b" (strLen "/a") = "/b" ∧
      (splitOnChar '/' (pathClean "/b").toList).length = 2) := by
  decide

/-- The result of a successful `refreshLock` on the stored lock:
duration replaced by the clamped request, modification time touched. -/
def refreshedLock (l : Lock) (D t : Int) : Lock :=
  { l with duration := clampDur D, modified := t }

/-- The clamp used by the lock manager is exactly
`max 20s (min 300s d)`. -/
theorem clampDur_eq (d : Int) :
    clampDur d = max minLockDuration (min maxLockDuration d) := by
  dsimp only [clampDur, minLockDuration, maxLockDuration, nminute, nsecond]
  rw [Int.max_def, Int.min_def]
  split_ifs <;> omega

/-- C4: a successful `refreshLock(T, q, D)` at time `t` on a live lock
whose scope includes `q` stores duration `clamp(D, 20s, 300s)` and
modification time `t`, making the expiry deadline `t + clamp(D)`; and
`createLock` likewise stores the clamped duration and creation time. -/
theorem refresh_and_create_clamp :
    (∀ (t : Int) (st : LMState) (T q : String) (D : Int) (l : Lock),
      lookupTok st T = some l → l.expired t = false →
      (Included q l.path l.depth).2 = true →
      refreshLockOp t T q D st =
        (some (refreshedLock l D t), replaceTok st T (refreshedLock l D t)) ∧
      (refreshedLock l D t).duration = clampDur D ∧
      (refreshedLock l D t).modified = t ∧
      (refreshedLock l D t).modified + (refreshedLock l D t).duration =
        t + max minLockDuration (min maxLockDuration D)) ∧
    (∀ (t : Int) (tok ow p : String) (d D : Int) (st : LMState) (l : Lock),
      (createLockOp t tok ow p d D st).1 = some l →
      l.duration = max minLockDuration (min maxLockDuration D) ∧ l.modified = t) := by
  constructor
  · intro t st T q D l hfind hlive hinc
    refine ⟨?_, rfl, rfl, ?_⟩
    · unfold refreshLockOp
      rw [hfind]
      simp [hlive, hinc, refreshedLock]
    · simp [refreshedLock, clampDur_eq]
  · intro t tok ow p d D st l hsome
    unfold createLockOp at hsome
    by_cases hscan : (createScan t p d st).2 = true
    · simp only [hscan, if_true] at hsome
      cases hsome
      exact ⟨clampDur_eq D, rfl⟩
    · simp [hscan] at hsome

/-- C3: while a created lock is live and not unlocked, `isLocked(q, T)`
covers the whole subtree of the lock's root for depth −1 and exactly the
root itself for depth 0. -/
theorem isLocked_coverage (t : Int) (st : LMState) (T p : String) (l : Lock)
    (hfind : lookupTok st T = some l) (hpath : l.path = p)
    (hlive : l.expired t = false) :
    (l.depth = -1 → ∀ q, (isLockedOp t q T st).1 = InTree q p) ∧
    (l.depth = 0 → ∀ q, (isLockedOp t q T st).1 = (q == p)) := by
  constructor <;> intro hd q
  · unfold isLockedOp
    rw [hfind]
    simp only [hlive, Bool.false_eq_true, if_false]
    rw [hpath] at *
    rw [hd]
    exact included_neg q p (-1) (by omega)
  · unfold isLockedOp
    rw [hfind]
    simp only [hlive, Bool.false_eq_true, if_false]
    rw [hpath] at *
    rw [hd]
    exact included_zero q p

/-- A concrete depth-infinity lock on `/a`, live at time 5. -/
def lkA : Lock :=
  { token := "tokA", depth := -1, owner := "o", duration := 30 * nsecond,
    modified := 0, path := "/a" }

/-- Witness for `refresh_and_create_clamp` at a concrete live lock and
an over-long requested duration. -/
theorem refresh_and_create_clamp_witness :
    refreshLockOp 5 "tokA" "/a/x" (1000 * nminute) [lkA] =
      (some (refreshedLock lkA (1000 * nminute) 5),
       replaceTok [lkA] "tokA" (refreshedLock lkA (1000 * nminute) 5)) :=
  (refresh_and_create_clamp.1 5 [lkA] "tokA" "/a/x" (1000 * nminute) lkA
    (by decide) (by decide) (by decide)).1

/-- Witness for `isLocked_coverage`: a depth-infinity lock on `/a`
covers `/a/b`. -/
theorem isLocked_coverage_witness :
    (isLockedOp 5 "/a/b" "tokA" [lkA]).1 = InTree "/a/b" "/a" :=
  (isLocked_coverage 5 [lkA] "tokA" "/a" lkA (by decide) rfl (by decide)).1 rfl "/a/b"

/-! ## The lock-exclusion invariant (claim C2) -/

/-- Two locks have disjoint regions: neither root is included in the
other lock's scope. -/
def disjointScopes (a b : Lock) : Prop :=
  (Included a.path b.path b.depth).2 = false ∧
  (Included b.path a.path a.depth).2 = false

theorem disjointScopes_symm : Symmetric disjointScopes := by
  intro a b h
  exact ⟨h.2, h.1⟩

theorem disjointScopes_congr_left {a a' b : Lock}
    (hp : a'.path = a.path) (hd : a'.depth = a.depth)
    (h : disjointScopes a b) : disjointScopes a' b := by
  unfold disjointScopes at *
  rw [hp, hd]
  exact h

/-- All states reachable from the empty lock manager by lock creation,
refresh, unlock, and the lazy expiry sweeps of `isLocked` and
`getLockForPath`. -/
inductive Reach : LMState → Prop
  | empty : Reach []
  | create (t : Int) (tok ow p : String) (d dur : Int) {st : LMState} :
      Reach st → Reach (createLockOp t tok ow p d dur st).2
  | refresh (t : Int) (tok p : String) (dur : Int) {st : LMState} :
      Reach st → Reach (refreshLockOp t tok p dur st).2
  | unlock (tok : String) {st : LMState} :
      Reach st → Reach (unlockOp st tok)
  | isLockedSweep (t : Int) (p tok : String) {st : LMState} :
      Reach st → Reach (isLockedOp t p tok st).2
  | getLockSweep (t : Int) (p : String) {st : LMState} :
      Reach st → Reach (getLockForPathOp t p st).2

/-- The inductive invariant: tokens are distinct (they key the Go map)
and all lock regions are pairwise disjoint. -/
def LMInv (st : LMState) : Prop :=
  (st.map Lock.token).Nodup ∧ st.Pairwise disjointScopes

theorem LMInv_nil : LMInv [] := by
  constructor <;> simp

theorem LMInv_sublist {st st' : LMState} (hs : st'.Sublist st)
    (h : LMInv st) : LMInv st' :=
  ⟨(hs.map Lock.token).nodup h.1, h.2.sublist hs⟩

theorem getLockForPathOp_sublist (t : Int) (p : String) (st : LMState) :
    ((getLockForPathOp t p st).2).Sublist st := by
  induction st with
  | nil => simp [getLockForPathOp]
  | cons l ls ih =>
    unfold getLockForPathOp
    split
    · exact (ih).cons l
    · split
      · exact List.Sublist.refl _
      · exact (ih).cons₂ l

theorem isLockedOp_sublist (t : Int) (p tok : String) (st : LMState) :
    ((isLockedOp t p tok st).2).Sublist st := by
  unfold isLockedOp
  cases hfind : lookupTok st tok with
  | none => exact List.eraseP_sublist st
  | some l =>
    by_cases he : l.expired t = true
    · simp only [he, if_true]
      exact List.eraseP_sublist st
    · simp only [he, Bool.false_eq_true, if_false]
      exact List.Sublist.refl st

theorem createScan_sublist (t : Int) (p : String) (d : Int) (st : LMState) :
    ((createScan t p d st).1).Sublist st := by
  induction st with
  | nil => simp [createScan]
  | cons l ls ih =>
    unfold createScan
    split
    · exact (ih).cons l
    · split
      · exact List.Sublist.refl _
      · split
        · exact List.Sublist.refl _
        · exact (ih).cons₂ l

/-- On a successful conflict scan every surviving lock passed both
disjointness checks against the requested `(p, d)` region. -/
theorem createScan_ok_mem (t : Int) (p : String) (d : Int) (st : LMState)
    (hok : (createScan t p d st).2 = true) :
    ∀ l ∈ (createScan t p d st).1,
      (Included p l.path l.depth).2 = false ∧
      (Included l.path p d).2 = false := by
  induction st with
  | nil => simp [createScan]
  | cons l ls ih =>
    unfold createScan at hok ⊢
    by_cases he : l.expired t = true
    · simp only [he, if_true] at hok ⊢
      exact ih hok
    · simp only [he, Bool.false_eq_true, if_false] at hok ⊢
      by_cases h1 : (Included p l.path l.depth).2 = true
      · simp [h1] at hok
      · simp only [h1, Bool.false_eq_true, if_false] at hok ⊢
        by_cases h2 : (Included l.path p d).2 = true
        · simp [h2] at hok
        · simp only [h2, Bool.false_eq_true, if_false] at hok ⊢
          intro x hx
          cases hx with
          | head =>
            exact ⟨Bool.eq_false_iff.mpr h1, Bool.eq_false_iff.mpr h2⟩
          | tail _ hx => exact ih hok x hx

theorem lookupTok_mem {st : LMState} {tok : String} {l : Lock}
    (h : lookupTok st tok = some l) : l ∈ st ∧ l.token = tok := by
  refine ⟨List.mem_of_find?_eq_some h, ?_⟩
  have := List.find?_some h
  simpa using this

/-- With distinct tokens, any member carrying the looked-up token is the
lock that `lookupTok` returned. -/
theorem lookupTok_uniq {st : LMState} {tok : String} {l x : Lock}
    (hnd : (st.map Lock.token).Nodup) (h : lookupTok st tok = some l)
    (hx : x ∈ st) (hxt : x.token = tok) : x = l := by
  obtain ⟨hl, hlt⟩ := lookupTok_mem h
  exact List.inj_on_of_nodup_map hnd hx hl (by rw [hxt, hlt])

theorem eraseTok_token_not_mem {st : LMState} {tok : String}
    (hnd : (st.map Lock.token).Nodup) :
    tok ∉ (eraseTok st tok).map Lock.token := by
  induction st with
  | nil => simp [eraseTok]
  | cons l ls ih =>
    simp only [List.map_cons, List.nodup_cons] at hnd
    unfold eraseTok
    rw [List.eraseP_cons]
    cases hl : (l.token == tok) with
    | true =>
      simp only [cond_true]
      have hlt : l.token = tok := by simpa using hl
      rw [← hlt]
      exact hnd.1
    | false =>
      simp only [cond_false]
      intro hmem
      simp only [List.map_cons, List.mem_cons] at hmem
      cases hmem with
      | inl hh => simp [hh] at hl
      | inr hh => exact ih hnd.2 hh

theorem LMInv_createLockOp (t : Int) (tok ow p : String) (d dur : Int)
    {st : LMState} (h : LMInv st) :
    LMInv (createLockOp t tok ow p d dur st).2 := by
  unfold createLockOp
  by_cases hok : (createScan t p d st).2 = true
  · simp only [hok, if_true]
    have hsub := createScan_sublist t p d st
    have hscanInv : LMInv (createScan t p d st).1 := LMInv_sublist hsub h
    have hesub := List.eraseP_sublist (p := fun l => l.token == tok)
      (createScan t p d st).1
    constructor
    · simp only [putTok, List.map_cons, List.nodup_cons]
      constructor
      · exact eraseTok_token_not_mem hscanInv.1
      · exact ((hesub.map Lock.token).nodup hscanInv.1)
    · simp only [putTok]
      refine List.Pairwise.cons ?_ (hscanInv.2.sublist hesub)
      intro b hb
      have hbscan : b ∈ (createScan t p d st).1 := hesub.mem hb
      have := createScan_ok_mem t p d st hok b hbscan
      exact ⟨this.1, this.2⟩
  · simp only [hok, Bool.false_eq_true, if_false]
    exact LMInv_sublist (createScan_sublist t p d st) h

/-- A lock is always included in its own scope. -/
theorem included_self (p : String) (d : Int) : (Included p p d).2 = true := by
  unfold Included
  simp

/-- Replacing the looked-up lock by one with the same token, path and
depth preserves the invariant. -/
theorem LMInv_replaceTok {st : LMState} {tok : String} {l l' : Lock}
    (h : LMInv st) (hfind : lookupTok st tok = some l)
    (ht : l'.token = l.token) (hp : l'.path = l.path) (hd : l'.depth = l.depth) :
    LMInv (replaceTok st tok l') := by
  have hlt : l.token = tok := (lookupTok_mem hfind).2
  have htoks : (replaceTok st tok l').map Lock.token = st.map Lock.token := by
    unfold replaceTok
    rw [List.map_map]
    refine List.map_congr_left ?_
    intro x _
    by_cases hxt : x.token = tok
    · simp [Function.comp, hxt, ht, hlt]
    · simp [Function.comp, hxt]
  refine ⟨by rw [htoks]; exact h.1, ?_⟩
  unfold replaceTok
  rw [List.pairwise_map]
  refine h.2.imp_of_mem ?_
  intro a b ha hb hab
  by_cases hat : a.token = tok
  · have haeq : a = l := lookupTok_uniq h.1 hfind ha hat
    by_cases hbt : b.token = tok
    · have hbeq : b = l := lookupTok_uniq h.1 hfind hb hbt
      exfalso
      rw [haeq, hbeq] at hab
      have hself := included_self l.path l.depth
      rw [hab.1] at hself
      exact Bool.false_ne_true hself
    · have hd1 : disjointScopes l' b :=
        disjointScopes_congr_left hp hd (haeq ▸ hab)
      simpa [hat, hbt] using hd1
  · by_cases hbt : b.token = tok
    · have hbeq : b = l := lookupTok_uniq h.1 hfind hb hbt
      have hd1 : disjointScopes a l' :=
        disjointScopes_symm
          (disjointScopes_congr_left hp hd (disjointScopes_symm (hbeq ▸ hab)))
      simpa [hat, hbt] using hd1
    · simpa [hat, hbt] using hab

theorem LMInv_refreshLockOp (t : Int) (tok p : String) (dur : Int)
    {st : LMState} (h : LMInv st) :
    LMInv (refreshLockOp t tok p dur st).2 := by
  unfold refreshLockOp
  cases hfind : lookupTok st tok with
  | none => exact h
  | some l =>
    by_cases he : l.expired t = true
    · simp only [he, if_true]
      exact LMInv_sublist (List.eraseP_sublist st) h
    · simp only [he, Bool.false_eq_true, if_false]
      by_cases hinc : (Included p l.path l.depth).2 = true
      · simp only [hinc, Bool.not_true, Bool.false_eq_true, if_false]
        exact LMInv_replaceTok h hfind rfl rfl rfl
      · have hinc' : (Included p l.path l.depth).2 = false := Bool.eq_false_iff.mpr hinc
        simp only [hinc', Bool.not_false, if_true]
        exact h

/-- Every reachable lock-manager state satisfies the invariant. -/
theorem Reach_LMInv {st : LMState} (h : Reach st) : LMInv st := by
  induction h with
  | empty => exact LMInv_nil
  | create t tok ow p d dur _ ih => exact LMInv_createLockOp t tok ow p d dur ih
  | refresh t tok p dur _ ih => exact LMInv_refreshLockOp t tok p dur ih
  | unlock tok _ ih => exact LMInv_sublist (List.eraseP_sublist _) ih
  | isLockedSweep t p tok _ ih => exact LMInv_sublist (isLockedOp_sublist t p tok _) ih
  | getLockSweep t p _ ih => exact LMInv_sublist (getLockForPathOp_sublist t p _) ih

/-- C2: in every state reachable from the empty manager by createLock,
refreshLock, unlock and the lazy expiry sweeps, any two distinct live
locks have disjoint regions: neither lock's root is included in the
other's scope. -/
theorem lock_regions_disjoint {st : LMState} (h : Reach st) (t : Int)
    {a b : Lock} (h1 : a ∈ st) (h2 : b ∈ st) (hne : a ≠ b)
    (hlive1 : a.expired t = false) (hlive2 : b.expired t = false) :
    (Included a.path b.path b.depth).2 = false ∧
    (Included b.path a.path a.depth).2 = false :=
  (Reach_LMInv h).2.forall disjointScopes_symm h1 h2 hne

/-- The two locks created in the witness run below. -/
def lk1 : Lock :=
  { token := "t1", depth := 0, owner := "o", duration := 30 * nsecond,
    modified := 10, path := "/a" }

def lk2 : Lock :=
  { token := "t2", depth := 0, owner := "o", duration := 30 * nsecond,
    modified := 10, path := "/b" }

/-- Witness for `lock_regions_disjoint`: two successful `createLock`
calls from the empty manager leave two disjoint live locks. -/
theorem lock_regions_disjoint_witness :
    (Included lk1.path lk2.path lk2.depth).2 = false ∧
    (Included lk2.path lk1.path lk1.depth).2 = false :=
  lock_regions_disjoint
    (Reach.create 10 "t2" "o" "/b" 0 (30 * nsecond)
      (Reach.create 10 "t1" "o" "/a" 0 (30 * nsecond) Reach.empty))
    10 (a := lk1) (b := lk2) (by decide) (by decide) (by decide)
    (by decide) (by decide)

/-! ## If-header lexer and parser (package `cond`)

Runes are `Char`s; the special lexer tokens `EOF` and `Not` become the
constructors of `Tok`. The mutable lexer is threaded explicitly; the
`for` loops of the Go parser become fuel-indexed recursion (the fuel is
chosen large enough that it never runs out on terminating inputs). -/

inductive Tok where
  | eof
  | not
  | ch (c : Char)
deriving DecidableEq, Repr, BEq

structure LexS where
  input : List Char
  pos : Int
  last : Tok
deriving Repr

/-- Embeds `lex.p(num)`: the rune at offset `num`, or EOF out of bounds. -/
def LexS.p (l : LexS) (num : Int) : Tok :=
  let np := l.pos + num
  if np < 0 ∨ (l.input.length : Int) ≤ np then Tok.eof
  else
    match l.input.get? np.toNat with
    | some c => Tok.ch c
    | none => Tok.eof

/-- Go `unicode.IsSpace` on the ASCII range. -/
def isSpaceGo (c : Char) : Bool :=
  c == ' ' || c == '\t' || c == '\n' || c == '\x0B' || c == '\x0C' || c == '\r'

def skipWs (fuel : Nat) (l : LexS) : LexS :=
  match fuel with
  | 0 => l
  | fuel+1 =>
    match l.p 1 with
    | Tok.ch c => if isSpaceGo c then skipWs fuel { l with pos := l.pos + 1 } else l
    | _ => l

/-- Embeds `lex.peek`: skip whitespace, recognise the keyword `Not`, record the
token as `last`. -/
def peek (fuel : Nat) (l : LexS) : Tok × LexS :=
  let l := skipWs fuel l
  let t :=
    if l.p 1 = Tok.ch 'N' ∧ l.p 2 = Tok.ch 'o' ∧ l.p 3 = Tok.ch 't' then Tok.not
    else l.p 1
  (t, { l with last := t })

/-- Embeds `lex.consume`: advance past the last peeked token. -/
def LexS.consume (l : LexS) : LexS :=
  if l.last = Tok.not then { l with pos := l.pos + 3 }
  else if l.last = Tok.eof then l
  else { l with pos := l.pos + 1 }

def tokenText (r : Tok) : String :=
  match r with
  | Tok.not => "Not"
  | Tok.ch c => String.mk [c]
  | Tok.eof => String.mk [Char.ofNat 0xFFFD]

/-- Embeds `lex.consumeIf`: consume runes while accepted; the middle component
reports the `io.EOF` error of running off the end of the input. -/
def consumeIf (fuel : Nat) (acc : Char → Bool) (l : LexS) : String × Bool × LexS :=
  match fuel with
  | 0 => ("", true, l)
  | fuel+1 =>
    match l.p 1 with
    | Tok.eof => ("", true, l)
    | Tok.not => ("", true, l)
    | Tok.ch c =>
      if !acc c then ("", false, l)
      else
        let l := l.consume
        let r := consumeIf fuel acc l
        (tokenText (Tok.ch c) ++ r.1, r.2.1, r.2.2)

/-- Embeds `lex.consumeUntil`: consume up to `stop`, then eat the stop token. -/
def consumeUntil (fuel : Nat) (stop : Char) (l : LexS) : String × Bool × LexS :=
  let r := consumeIf fuel (fun c => c != stop) l
  if r.2.1 then r
  else (r.1, false, r.2.2.consume)

/-- A single If-header condition (`cond.Condition`). -/
structure Condition where
  Not : Bool
  State : String
  ETag : String
deriving DecidableEq, Repr

/-- Embeds `cond.parseCondition`; the middle component is the parse error. -/
def parseCondition (fuel : Nat) (l : LexS) : Condition × Option String × LexS :=
  let res : Condition := { Not := false, State := "", ETag := "" }
  let (tok, l) := peek fuel l
  let (res, tok, l) :=
    if tok = Tok.not then
      let l := l.consume
      let (tok, l) := peek fuel l
      ({ res with Not := true }, tok, l)
    else (res, tok, l)
  if tok = Tok.ch '[' then
    let l := l.consume
    let r := consumeUntil fuel ']' l
    let res := { res with ETag := r.1 }
    if r.1 = "" then (res, some "empty etag", r.2.2)
    else (res, if r.2.1 then some "EOF" else none, r.2.2)
  else
    let r := consumeIf fuel (fun c => c != ')' && c != ' ') l
    let tt := r.1
    let tt :=
      if 2 ≤ tt.toList.length ∧ tt.toList.head? = some '<' then
        String.mk (tt.toList.drop 1).dropLast
      else tt
    let res := { res with State := tt }
    if tt = "" then (res, some "empty condition", r.2.2)
    else (res, if r.2.1 then some "EOF" else none, r.2.2)

/-- A parenthesised AND-list with optional resource (`cond.ConditionList`). -/
structure ConditionList where
  Resource : String
  Conditions : List Condition
deriving DecidableEq, Repr

/-- The condition loop of `cond.parseList`. -/
def parseListLoop (fuel : Nat) (conds : List Condition) (tok : Tok) (l : LexS) :
    List Condition × Option String × Tok × LexS :=
  match fuel with
  | 0 => (conds, some "out of fuel", tok, l)
  | fuel+1 =>
    if tok ≠ Tok.ch ')' ∧ tok ≠ Tok.eof then
      let (c, err, l) := parseCondition fuel l
      let conds := conds ++ [c]
      match err with
      | some e => (conds, some ("could not parse condition: " ++ e), tok, l)
      | none =>
        let (tok, l) := peek fuel l
        parseListLoop fuel conds tok l
    else (conds, none, tok, l)

/-- Embeds `cond.parseList`. -/
def parseListC (fuel : Nat) (l : LexS) : ConditionList × Option String × LexS :=
  let res : ConditionList := { Resource := "", Conditions := [] }
  let (tok, l) := peek fuel l
  if tok = Tok.ch '<' then
    let l := l.consume
    let r := consumeUntil fuel '>' l
    let res := { res with Resource := r.1 }
    if r.2.1 ∨ r.1 = "" then (res, some "could not parse resource", r.2.2)
    else
      let (tok, l) := peek fuel r.2.2
      if tok ≠ Tok.ch '(' then (res, some "expected (", l)
      else
        let l := l.consume
        let (tok, l) := peek fuel l
        let r := parseListLoop fuel [] tok l
        let res := { res with Conditions := r.1 }
        match r.2.1 with
        | some e => (res, some e, r.2.2.2)
        | none =>
          if r.2.2.1 ≠ Tok.ch ')' then (res, some "expected )", r.2.2.2)
          else (res, none, r.2.2.2.consume)
  else
    if tok ≠ Tok.ch '(' then (res, some "expected (", l)
    else
      let l := l.consume
      let (tok, l) := peek fuel l
      let r := parseListLoop fuel [] tok l
      let res := { res with Conditions := r.1 }
      match r.2.1 with
      | some e => (res, some e, r.2.2.2)
      | none =>
        if r.2.2.1 ≠ Tok.ch ')' then (res, some "expected )", r.2.2.2)
        else (res, none, r.2.2.2.consume)

/-- The whole If header: an OR of lists (`cond.IfTag`). -/
structure IfTag where
  Lists : List ConditionList
deriving DecidableEq, Repr

/-- The list loop of `cond.ParseIfTag`. -/
def parseIfLoop (fuel : Nat) (acc : List ConditionList) (l : LexS) :
    List ConditionList × Option String × LexS :=
  match fuel with
  | 0 => (acc, some "out of fuel", l)
  | fuel+1 =>
    let (tok, l) := peek fuel l
    if tok = Tok.eof then (acc, none, l)
    else
      let r := parseListC fuel l
      let acc := acc ++ [r.1]
      match r.2.1 with
      | some e => (acc, some ("could not parse list: " ++ e), r.2.2)
      | none => parseIfLoop fuel acc r.2.2

/-- Embeds `cond.ParseIfTag`, with fuel ample for the input. -/
def ParseIfTagM (s : String) : IfTag × Option String :=
  let fuel := s.toList.length * 8 + 64
  let l : LexS := { input := s.toList, pos := -1, last := Tok.ch (Char.ofNat 0) }
  let r := parseIfLoop fuel [] l
  ({ Lists := r.1 }, r.2.1)

example : (ParseIfTagM "").2 = none := by decide
example : (ParseIfTagM "(a)").2 = none := by decide
example : (ParseIfTagM "(a) (b)").2 = none := by decide
example : (ParseIfTagM "(Not a Not b Not [d])").2 = none := by decide
example : (ParseIfTagM "(Not a) (Not b)").2 = none := by decide
example : (ParseIfTagM "([a])").2 = none := by decide
example : (ParseIfTagM "foobar").2.isSome = true := by decide
example : (ParseIfTagM "(a").2.isSome = true := by decide
example : (ParseIfTagM "([b").2.isSome = true := by decide
example : (ParseIfTagM "(Not a").2.isSome = true := by decide
example :
    (ParseIfTagM "(<urn:x>)").1 =
      { Lists := [{ Resource := "", Conditions := [{ Not := false, State := "urn:x", ETag := "" }] }] } := by
  decide

/-- Embeds `IfTag.GetAllTokens`: every `State` token across every list. -/
def IfTag.GetAllTokens (tg : IfTag) : List String :=
  (tg.Lists.map (fun l =>
    (l.Conditions.filter (fun c => c.State ≠ "")).map (fun c => c.State))).flatten

/-- Embeds `IfTag.GetSingleState`: the token of the unique non-negated state
condition, if the header has exactly one single-condition list. -/
def IfTag.GetSingleState (tg : IfTag) : String × Bool :=
  match tg.Lists with
  | [l] =>
    match l.Conditions with
    | [c] =>
      if c.ETag ≠ "" then ("", false)
      else if c.Not then ("", false)
      else (c.State, true)
    | _ => ("", false)
  | _ => ("", false)

/-! ## Condition evaluation and host rewriting

The `cond.Env` interface is instantiated by the server with `fsEnv`,
whose `ETag` reads the filesystem (passed as a pure function) and whose
`Locked` calls `lockmaster.isLocked`, which can delete expired entries;
the lock table is therefore threaded through evaluation. -/

/-- Embeds `Condition.Eval` under `fsEnv`. -/
def Condition.EvalS (c : Condition) (etagOf : String → String) (t : Int)
    (r : String) (lm : LMState) : Bool × LMState :=
  if c.State ≠ "" then
    let rr := isLockedOp t r c.State lm
    (if c.Not then !rr.1 else rr.1, rr.2)
  else
    let res := etagOf r == c.ETag
    (if c.Not then !res else res, lm)

/-- The conjunction loop of `ConditionList.Eval` (short-circuiting). -/
def evalCondsS (etagOf : String → String) (t : Int) (r : String) :
    List Condition → LMState → Bool × LMState
  | [], lm => (true, lm)
  | c :: cs, lm =>
    let rr := c.EvalS etagOf t r lm
    if !rr.1 then (false, rr.2) else evalCondsS etagOf t r cs rr.2

/-- Embeds `ConditionList.Eval` under `fsEnv`. -/
def ConditionList.EvalS (cl : ConditionList) (etagOf : String → String)
    (t : Int) (rdef : String) (lm : LMState) : Bool × LMState :=
  let rdef := if cl.Resource ≠ "" then cl.Resource else rdef
  evalCondsS etagOf t rdef cl.Conditions lm

/-- The disjunction loop of `IfTag.Eval` (short-circuiting). -/
def evalListsS (etagOf : String → String) (t : Int) (rdef : String) :
    List ConditionList → LMState → Bool × LMState
  | [], lm => (false, lm)
  | l :: ls, lm =>
    let rr := l.EvalS etagOf t rdef lm
    if rr.1 then (true, rr.2) else evalListsS etagOf t rdef ls rr.2

/-- Embeds `IfTag.Eval` under `fsEnv`. -/
def IfTag.EvalS (tg : IfTag) (etagOf : String → String) (t : Int)
    (rdef : String) (lm : LMState) : Bool × LMState :=
  evalListsS etagOf t rdef tg.Lists lm

/-- A parsed URL, as far as this server inspects it: the outcome of
`net/url.Parse` is a host and a path. -/
structure URLM where
  host : String
  path : String
deriving DecidableEq, Repr

/-- The `net/url.Parse` collaborator, supplied as an oracle: `none`
models a parse error. -/
abbrev URLParse := String → Option URLM

/-- The loop of `IfTag.RewriteHosts`: reject list resources naming a
foreign host, reduce matching absolute URIs to their path. -/
def rewriteHostsLoop (up : URLParse) (h : String) :
    List ConditionList → Except String (List ConditionList)
  | [] => .ok []
  | l :: ls =>
    if l.Resource = "" then
      (rewriteHostsLoop up h ls).map (fun r => l :: r)
    else
      match up l.Resource with
      | none => .error "url parse error"
      | some u =>
        if u.host ≠ "" ∧ u.host ≠ h then .error "Bad host"
        else (rewriteHostsLoop up h ls).map (fun r => { l with Resource := u.path } :: r)

def IfTag.RewriteHosts (tg : IfTag) (up : URLParse) (h : String) :
    Except String IfTag :=
  (rewriteHostsLoop up h tg.Lists).map (fun ls => { Lists := ls })

/-! ## The write-authorization check (claim C7) -/

/-- The token loop of `checkCanWrite`, testing each If-header token with
`lockmaster.isLocked` (whose lazy deletions are threaded through). -/
def anyTokenLocked (t : Int) (p : String) :
    List String → LMState → Bool × LMState
  | [], lm => (false, lm)
  | tk :: tks, lm =>
    let r := isLockedOp t p tk lm
    if r.1 then (true, r.2) else anyTokenLocked t p tks r.2

/-- Embeds `WebDAV.checkCanWrite`: no covering lock authorizes; a covering lock
with no If header denies; otherwise any matching token authorizes. -/
def checkCanWrite (t : Int) (cond : Option IfTag) (p : String)
    (lm : LMState) : Bool × LMState :=
  let r := getLockForPathOp t p lm
  match r.1 with
  | none => (true, r.2)
  | some _ =>
    match cond with
    | none => (false, r.2)
    | some c => anyTokenLocked t p c.GetAllTokens r.2

/-- Finding via `find?` is unchanged by erasing elements that cannot match. -/
theorem find?_eraseP_of_neg {α : Type} (p q : α → Bool) (l : List α)
    (h : ∀ x, q x = true → p x = false) :
    (l.eraseP q).find? p = l.find? p := by
  induction l with
  | nil => simp
  | cons a l ih =>
    rw [List.eraseP_cons]
    cases hq : q a with
    | true =>
      simp only [cond_true]
      rw [List.find?_cons]
      rw [h a hq]
    | false =>
      simp only [cond_false]
      rw [List.find?_cons, List.find?_cons]
      cases hp : p a with
      | true => rfl
      | false => exact ih

/-- Deleting an expired entry does not change any `isLocked` result at
the same instant. -/
theorem isLockedB_eraseTok_expired {t : Int} {p tok tk : String}
    {st : LMState} {l : Lock} (hnd : (st.map Lock.token).Nodup)
    (hfind : lookupTok st tk = some l) (he : l.expired t = true) :
    isLockedB t p tok (eraseTok st tk) = isLockedB t p tok st := by
  by_cases htk : tok = tk
  · subst htk
    have hnone : (eraseTok st tok).find? (fun x => x.token == tok) = none := by
      rw [List.find?_eq_none]
      intro x hx
      intro hxx
      have hmem : tok ∈ (eraseTok st tok).map Lock.token := by
        refine List.mem_map.mpr ⟨x, hx, ?_⟩
        simpa using hxx
      exact eraseTok_token_not_mem hnd hmem
    unfold isLockedB lookupTok
    rw [hnone]
    unfold lookupTok at hfind
    rw [hfind]
    simp [he]
  · have heq : (eraseTok st tk).find? (fun x => x.token == tok) =
        st.find? (fun x => x.token == tok) := by
      refine find?_eraseP_of_neg _ _ st ?_
      intro x hx
      have hxt : x.token = tk := by simpa using hx
      simp [hxt]
      intro hcon
      exact absurd hcon.symm htk
    unfold isLockedB lookupTok
    rw [heq]

/-- The boolean result of `isLocked` is its pure characterization. -/
theorem isLockedOp_fst (t : Int) (p tok : String) (st : LMState) :
    (isLockedOp t p tok st).1 = isLockedB t p tok st := by
  unfold isLockedOp isLockedB
  cases hfind : lookupTok st tok with
  | none => rfl
  | some l =>
    by_cases he : l.expired t = true
    · simp [he]
    · have he' : l.expired t = false := Bool.eq_false_iff.mpr he
      simp [he']

/-- The lazy deletion of `isLocked` changes no `isLocked` result and keeps
tokens distinct. -/
theorem isLockedOp_snd_inv (t : Int) (p tok : String) (st : LMState)
    (hnd : (st.map Lock.token).Nodup) :
    (∀ p' tk, isLockedB t p' tk (isLockedOp t p tok st).2 = isLockedB t p' tk st) ∧
    (((isLockedOp t p tok st).2).map Lock.token).Nodup := by
  refine ⟨?_, ((isLockedOp_sublist t p tok st).map Lock.token).nodup hnd⟩
  intro p' tk
  unfold isLockedOp
  cases hfind : lookupTok st tok with
  | none =>
    have : eraseTok st tok = st := by
      unfold eraseTok
      refine List.eraseP_of_forall_not ?_
      intro x hx
      intro hxx
      unfold lookupTok at hfind
      have := List.find?_eq_none.mp hfind x hx
      exact this hxx
    simp [this]
  | some l =>
    by_cases he : l.expired t = true
    · simp only [he, if_true]
      exact isLockedB_eraseTok_expired hnd hfind he
    · have he' : l.expired t = false := Bool.eq_false_iff.mpr he
      simp [he']

/-- The `getLockForPath` sweep changes no `isLocked` result. -/
theorem getLockForPathOp_snd_inv (t : Int) (p' : String) (st : LMState)
    (hnd : (st.map Lock.token).Nodup) :
    ∀ p tk, isLockedB t p tk (getLockForPathOp t p' st).2 = isLockedB t p tk st := by
  induction st with
  | nil => intro p tk; rfl
  | cons l ls ih =>
    intro p tk
    have hndtail : (ls.map Lock.token).Nodup := by
      simp only [List.map_cons, List.nodup_cons] at hnd
      exact hnd.2
    have hhead : l.token ∉ ls.map Lock.token := by
      simp only [List.map_cons, List.nodup_cons] at hnd
      exact hnd.1
    unfold getLockForPathOp
    by_cases he : l.expired t = true
    · simp only [he, if_true]
      rw [ih hndtail p tk]
      unfold isLockedB lookupTok
      rw [List.find?_cons]
      cases hl : (l.token == tk) with
      | true =>
        have htk : l.token = tk := by simpa using hl
        have hnone : ls.find? (fun x => x.token == tk) = none := by
          rw [List.find?_eq_none]
          intro x hx hxx
          apply hhead
          refine List.mem_map.mpr ⟨x, hx, ?_⟩
          rw [htk]
          simpa using hxx
        rw [hnone]
        simp [he]
      | false => rfl
    · have he' : l.expired t = false := Bool.eq_false_iff.mpr he
      by_cases hc : (Included p' l.path l.depth).2 = true
      · simp [he', hc]
      · have hc' : (Included p' l.path l.depth).2 = false := Bool.eq_false_iff.mpr hc
        simp only [he', Bool.false_eq_true, if_false, hc', Bool.false_eq_true]
        unfold isLockedB lookupTok
        rw [List.find?_cons, List.find?_cons]
        cases hl : (l.token == tk) with
        | true => rfl
        | false =>
          have := ih hndtail p tk
          unfold isLockedB lookupTok at this
          exact this

/-- When no live lock covers `p`, `getLockForPath` reports none. -/
theorem getLockForPathOp_none (t : Int) (p : String) (st : LMState)
    (h : ∀ l ∈ st, l.expired t = false → (Included p l.path l.depth).2 = false) :
    (getLockForPathOp t p st).1 = none := by
  induction st with
  | nil => rfl
  | cons l ls ih =>
    unfold getLockForPathOp
    by_cases he : l.expired t = true
    · simp only [he, if_true]
      exact ih (fun x hx => h x (List.mem_cons_of_mem l hx))
    · have he' : l.expired t = false := Bool.eq_false_iff.mpr he
      have hc := h l (List.mem_cons_self l ls) he'
      simp only [he', Bool.false_eq_true, if_false, hc]
      exact ih (fun x hx => h x (List.mem_cons_of_mem l hx))

/-- When some live lock covers `p`, `getLockForPath` reports a lock. -/
theorem getLockForPathOp_some (t : Int) (p : String) (st : LMState)
    {l₀ : Lock} (hmem : l₀ ∈ st) (hlive : l₀.expired t = false)
    (hcov : (Included p l₀.path l₀.depth).2 = true) :
    ((getLockForPathOp t p st).1).isSome = true := by
  induction st with
  | nil => cases hmem
  | cons l ls ih =>
    unfold getLockForPathOp
    by_cases he : l.expired t = true
    · simp only [he, if_true]
      cases hmem with
      | head =>
        rw [hlive] at he
        cases he
      | tail _ hmem => exact ih hmem
    · have he' : l.expired t = false := Bool.eq_false_iff.mpr he
      by_cases hc : (Included p l.path l.depth).2 = true
      · simp [he', hc]
      · have hc' : (Included p l.path l.depth).2 = false := Bool.eq_false_iff.mpr hc
        simp only [he', Bool.false_eq_true, if_false, hc']
        cases hmem with
        | head =>
          rw [hcov] at hc'
          cases hc'
        | tail _ hmem => exact ih hmem

theorem any_congr_local {α : Type} (l : List α) (f g : α → Bool)
    (h : ∀ x, f x = g x) : l.any f = l.any g := by
  induction l with
  | nil => rfl
  | cons a l ih => simp [List.any_cons, h a, ih]

/-- The token loop computes the disjunction of the pure `isLocked`
results on the initial state. -/
theorem anyTokenLocked_fst (t : Int) (p : String) (tks : List String)
    (st : LMState) (hnd : (st.map Lock.token).Nodup) :
    (anyTokenLocked t p tks st).1 = tks.any (fun tk => isLockedB t p tk st) := by
  induction tks generalizing st with
  | nil => rfl
  | cons tk tks ih =>
    unfold anyTokenLocked
    rw [List.any_cons]
    have hfst := isLockedOp_fst t p tk st
    obtain ⟨hinv, hnd'⟩ := isLockedOp_snd_inv t p tk st hnd
    by_cases hb : (isLockedOp t p tk st).1 = true
    · rw [hfst] at hb
      simp [isLockedOp_fst, hb, hfst]
    · have hb' : (isLockedOp t p tk st).1 = false := Bool.eq_false_iff.mpr hb
      rw [hfst] at hb'
      simp only [hfst, hb', Bool.false_eq_true, if_false, Bool.false_or]
      rw [ih _ hnd']
      refine any_congr_local tks _ _ ?_
      intro tk'
      exact hinv p tk'

/-- A sweep state keeps distinct tokens. -/
theorem getLockForPathOp_nodup (t : Int) (p : String) (st : LMState)
    (hnd : (st.map Lock.token).Nodup) :
    (((getLockForPathOp t p st).2).map Lock.token).Nodup :=
  ((getLockForPathOp_sublist t p st).map Lock.token).nodup hnd

/-- C7: on path `p`, `checkCanWrite` authorizes when no live lock
covers `p`; with a covering live lock it denies a request without an If
header, and otherwise authorizes exactly when some token of the header
satisfies `isLocked(p, token)`. -/
theorem checkCanWrite_spec (t : Int) (cond : Option IfTag) (p : String)
    (st : LMState) (hnd : (st.map Lock.token).Nodup) :
    ((∀ l ∈ st, l.expired t = false → (Included p l.path l.depth).2 = false) →
      (checkCanWrite t cond p st).1 = true) ∧
    (∀ l₀ ∈ st, l₀.expired t = false → (Included p l₀.path l₀.depth).2 = true →
      (cond = none → (checkCanWrite t cond p st).1 = false) ∧
      (∀ c, cond = some c →
        (checkCanWrite t cond p st).1 =
          c.GetAllTokens.any (fun tk => isLockedB t p tk st))) := by
  constructor
  · intro hnone
    simp only [checkCanWrite]
    rw [getLockForPathOp_none t p st hnone]
  · intro l₀ hmem hlive hcov
    have hsome := getLockForPathOp_some t p st hmem hlive hcov
    simp only [checkCanWrite]
    cases hres : (getLockForPathOp t p st).1 with
    | none =>
      rw [hres] at hsome
      cases hsome
    | some lx =>
      constructor
      · intro hc
        subst hc
        rfl
      · intro c hc
        subst hc
        have hnd' := getLockForPathOp_nodup t p st hnd
        show (anyTokenLocked t p c.GetAllTokens (getLockForPathOp t p st).2).1 = _
        rw [anyTokenLocked_fst t p c.GetAllTokens _ hnd']
        refine any_congr_local _ _ _ ?_
        intro tk
        exact getLockForPathOp_snd_inv t p st hnd p tk

/-- Witness for `checkCanWrite_spec`: a live depth-infinity lock on
`/a` covers `/a/b`; a request carrying its token is authorized. -/
theorem checkCanWrite_spec_witness :
    (checkCanWrite 5
        (some { Lists := [{ Resource := "", Conditions :=
          [{ Not := false, State := "tokA", ETag := "" }] }] })
        "/a/b" [lkA]).1 =
      (IfTag.GetAllTokens { Lists := [{ Resource := "", Conditions :=
          [{ Not := false, State := "tokA", ETag := "" }] }] }).any
        (fun tk => isLockedB 5 "/a/b" tk [lkA]) :=
  ((checkCanWrite_spec 5
      (some { Lists := [{ Resource := "", Conditions :=
        [{ Not := false, State := "tokA", ETag := "" }] }] })
      "/a/b" [lkA] (by decide)).2 lkA (by decide) (by decide) (by decide)).2
    _ rfl

/-! ## Errors (`errors.go`) and the HTTP response writer

`webdav.Error` carries an HTTP code, a label and an optional cause; any
other Go `error` value is `GoErr.plain`. The response writer is
modelled from the spec: the net/http contract, under which
`WriteHeader` commits the status and a snapshot of the headers, later
`Header().Set` or `WriteHeader` calls have no effect, and a handler
that never writes a status gets a default 200. -/

structure WError where
  code : Nat
  text : String
  cause : Option String := none
deriving DecidableEq, Repr

def WError.withCause (e : WError) (c : String) : WError :=
  { code := e.code, text := e.text, cause := some c }

def StatusMulti : Nat := 207

def StatusLocked : Nat := 423

def ErrorNotYetImplemented : WError := { code := 418, text := "TODO" }

def ErrorBadPath : WError := { code := 400, text := "BadPath" }

def ErrorNotFound : WError := { code := 404, text := "NotFound" }

def ErrorConflict : WError := { code := 409, text := "Conflict" }

def ErrorNotAllowed : WError := { code := 405, text := "NotAllowed" }

def ErrorUnsupportedType : WError := { code := 415, text := "UnsupportedType" }

def ErrorIsDir : WError := { code := 405, text := "IsDir" }

def ErrorIsNotDir : WError := { code := 405, text := "IsNotDir" }

def ErrorMissingParent : WError := { code := 409, text := "MissingParent" }

def ErrorUnderrun : WError := { code := 400, text := "Underrun" }

def ErrorBadHost : WError := { code := 502, text := "BadHost" }

def ErrorBadDepth : WError := { code := 400, text := "BadDepth" }

def ErrorBadDest : WError := { code := 400, text := "BadDest" }

def ErrorBadPropfind : WError := { code := 400, text := "BadPropfind" }

def ErrorDestExists : WError := { code := 412, text := "DestExists" }

def ErrorSameFile : WError := { code := 403, text := "SameFile" }

def ErrorBadProppatch : WError := { code := 400, text := "BadProppatch" }

def ErrorLocked : WError := { code := StatusLocked, text := "Locked" }

def ErrorBadLock : WError := { code := 400, text := "BadLock" }

/-- A Go error value as the dispatcher sees it: either a tagged
`webdav.Error` or any other error. -/
inductive GoErr where
  | wdav (e : WError)
  | plain (msg : String)
deriving DecidableEq, Repr

/-- The status `errorHeader` writes: the tagged code, or 500 for a
plain error (the `e.(Error)` type assertion fails). -/
def errCode (e : GoErr) : Nat :=
  match e with
  | .wdav we => we.code
  | .plain _ => 500

/-- Modelled from the spec: the net/http `ResponseWriter` contract.
`headers` is the live header map; `sent` is the snapshot committed by
the first `WriteHeader`; changes after the commit have no effect. -/
structure RW where
  status : Option Nat
  headers : List (String × String)
  sent : List (String × String)
  body : String
deriving DecidableEq, Repr

def emptyRW : RW := { status := none, headers := [], sent := [], body := "" }

def setKV : List (String × String) → String → String → List (String × String)
  | [], k, v => [(k, v)]
  | (k', v') :: t, k, v =>
    if k' = k then (k, v) :: t else (k', v') :: setKV t k v

def RW.writeHeader (w : RW) (code : Nat) : RW :=
  if w.status.isSome then w
  else { w with status := some code, sent := w.headers }

def RW.setHeader (w : RW) (k v : String) : RW :=
  if w.status.isSome then w
  else { w with headers := setKV w.headers k v }

def RW.write (w : RW) (s : String) : RW :=
  let w := w.writeHeader 200
  { w with body := w.body ++ s }

/-- The status on the wire once the handler returns. -/
def finalStatus (w : RW) : Nat := w.status.getD 200

/-- A committed (wire-visible) header. -/
def sentHeader (w : RW) (k : String) : Option String :=
  (w.sent.find? (fun kv => kv.1 == k)).map (fun kv => kv.2)

/-- net/http commits a 200 with the current headers when the handler
finishes without writing one. -/
def finalize (w : RW) : RW := w.writeHeader 200

/-! ## The abstract filesystem (`filesystem.go`)

The `FileSystem`/`Path`/`File` interfaces are a collaborator boundary;
they are modelled as a record of functions over path strings, one field
per interface method used by the dispatcher. -/

structure FileInfoM where
  size : Int
  created : Int
  lastModified : Int
deriving DecidableEq, Repr

structure FSFile where
  isDir : Bool
  statRes : Except GoErr FileInfoM
deriving Repr

structure FS where
  forPath : String → Except GoErr String
  parent : String → String
  lookup : String → Except GoErr FSFile
  remove : String → Option GoErr
  recursiveRemove : String → List (String × GoErr)
  create : String → Option GoErr
  copyTo : String → String → Bool → Bool → Int → Except GoErr Bool

/-- Embeds `etag(fi)`: `"<size>-<last-modified>"`. -/
def etagStr (fi : FileInfoM) : String :=
  toString fi.size ++ "-" ++ toString fi.lastModified

/-- Embeds `fsEnv.ETag`: resolve, look up and stat the resource; any failure
yields the empty tag. -/
def fsETag (fs : FS) (r : String) : String :=
  match fs.forPath r with
  | .error _ => ""
  | .ok p =>
    match fs.lookup p with
    | .error _ => ""
    | .ok f =>
      match f.statRes with
      | .error _ => ""
      | .ok fi => etagStr fi

/-- Embeds `WebDAV.allowedHeader`'s Allow string for the target. -/
def allowedStr (fs : FS) (p : String) : String :=
  match fs.lookup p with
  | .error _ => "OPTIONS, MKCOL, PUT, LOCK"
  | .ok f =>
    let allowed := "OPTIONS, GET, HEAD, POST, DELETE, TRACE, PROPPATCH, COPY, MOVE, LOCK, UNLOCK"
    if f.isDir then allowed ++ ", PUT, PROPFIND" else allowed

/-- Embeds `WebDAV.errorHeader`: write the tagged code (500 for plain errors);
the Allow header for 405s is set only after the status is committed, so
it never reaches the wire. -/
def errorHeader (fs : FS) (p : String) (w : RW) (e : GoErr) : RW :=
  match e with
  | .wdav we =>
    let w := w.writeHeader we.code
    if we.code = 405 then w.setHeader "Allow" (allowedStr fs p) else w
  | .plain _ => w.writeHeader 500

theorem finalStatus_errorHeader (fs : FS) (p : String) (w : RW) (e : GoErr)
    (hw : w.status = none) : finalStatus (errorHeader fs p w e) = errCode e := by
  unfold errorHeader errCode
  cases e with
  | plain m => simp [RW.writeHeader, hw, finalStatus]
  | wdav we =>
    by_cases h405 : we.code = 405
    · simp [RW.writeHeader, RW.setHeader, hw, finalStatus, h405]
    · simp [RW.writeHeader, RW.setHeader, hw, finalStatus, h405]

/-! ## Request-context extraction and dispatch entry -/

structure Request where
  method : String
  urlPath : String
  host : String
  depthH : String
  ifH : String
  timeoutH : String
  overwriteH : String
  destination : String
  lockTokenH : String
deriving DecidableEq, Repr

structure Ctx where
  p : String
  depth : Int
  timeout : Int
  cond : Option IfTag
  overwrite : Bool
deriving DecidableEq, Repr

def digitVal (c : Char) : Option Nat :=
  if '0' ≤ c ∧ c ≤ '9' then some (c.toNat - '0'.toNat) else none

def natOfDigits (ds : List Char) : Option Nat :=
  match ds with
  | [] => none
  | _ =>
    ds.foldl
      (fun acc c =>
        match acc, digitVal c with
        | some a, some d => some (a * 10 + d)
        | _, _ => none)
      (some 0)

/-- Model of Go `strconv.Atoi` (optional sign and decimal digits). -/
def goAtoi (s : String) : Option Int :=
  match s.toList with
  | '-' :: ds => (natOfDigits ds).map (fun n => -(n : Int))
  | '+' :: ds => (natOfDigits ds).map (fun n => (n : Int))
  | ds => (natOfDigits ds).map (fun n => (n : Int))

/-- Embeds `parseDepth`: missing or `infinity` is −1; a non-negative integer
is accepted; anything else is `BadDepth`. -/
def parseDepth (dh : String) : Except GoErr Int :=
  if dh = "infinity" ∨ dh = "Infinity" ∨ dh = "" then .ok (-1)
  else
    match goAtoi dh with
    | none => .error (.wdav (ErrorBadDepth.withCause "atoi"))
    | some d =>
      if d < 0 then .error (.wdav (ErrorBadDepth.withCause "negative"))
      else .ok d

/-- Model of Go `strings.TrimPrefix`. -/
def trimPfxGo (s pre : String) : String :=
  if strHasPfx s pre then strDropN s (strLen pre) else s

/-- Model of Go `strings.TrimSpace` (ASCII space set). -/
def trimSpaceGo (s : String) : String :=
  String.mk (((s.toList.dropWhile isSpaceGo).reverse.dropWhile isSpaceGo).reverse)

def joinChars (sep : Char) : List (List Char) → List Char
  | [] => []
  | [x] => x
  | x :: xs => x ++ sep :: joinChars sep xs

/-- Model of Go `strings.SplitN(s, ",", 3)`. -/
def splitNComma3 (s : String) : List String :=
  match splitOnChar ',' s.toList with
  | a :: b :: c :: rest => [String.mk a, String.mk b, String.mk (joinChars ',' (c :: rest))]
  | ps => ps.map (fun cs => String.mk cs)

/-- The option loop of `parseTimeout`. Note the Go code swaps the
arguments of `strings.TrimPrefix` (`TrimPrefix("Second-", o)`), so `o`
is replaced by `"Second-"` with itself stripped, which never parses as
an integer; the loop therefore always falls through to one second. -/
def parseTimeoutLoop : List String → Int
  | [] => nsecond
  | o :: os =>
    let o := trimSpaceGo o
    if o = "Infinite" then parseTimeoutLoop os
    else
      let o := trimPfxGo "Second-" o
      match goAtoi o with
      | none => parseTimeoutLoop os
      | some d => d * nsecond

/-- Embeds `parseTimeout`: first three comma-separated options considered. -/
def parseTimeout (th : String) : Int :=
  parseTimeoutLoop (splitNComma3 th)

example : parseTimeout "Second-3600" = nsecond := by decide
example : parseTimeout "" = nsecond := by decide

/-- Embeds `parseIfHeader`: absent header is fine; a parse or rewrite failure
is returned as the plain (untagged) error produced inside package
`cond`. -/
def parseIfHeaderM (up : URLParse) (host ih : String) :
    Except GoErr (Option IfTag) :=
  if ih = "" then .ok none
  else
    match (ParseIfTagM ih).2 with
    | some e => .error (.plain e)
    | none =>
      match (ParseIfTagM ih).1.RewriteHosts up host with
      | .error e => .error (.plain e)
      | .ok tg => .ok (some tg)

/-- Embeds `WebDAV.extractContext`. -/
def extractContext (up : URLParse) (fs : FS) (r : Request) :
    Except GoErr Ctx :=
  match fs.forPath r.urlPath with
  | .error e => .error e
  | .ok p =>
    match parseDepth r.depthH with
    | .error e => .error e
    | .ok depth =>
      match parseIfHeaderM up r.host r.ifH with
      | .error e => .error e
      | .ok cond =>
        .ok { p := p, depth := depth, timeout := parseTimeout r.timeoutH,
              cond := cond, overwrite := r.overwriteH ≠ "F" }

/-- The outcome of the entry phase of `ServeHTTP` (through the If
evaluation), before the method switch. -/
inductive Entry where
  | early (w : RW) (lm : LMState)
  | dispatch (ctx : Ctx) (lm : LMState)
deriving Repr

/-- Embeds `ServeHTTP` up to the method switch: the `/dumpz` hook, context
extraction (errors through `errorHeader`), and the If-header
precondition evaluation (412 on failure). -/
def serveEntry (t : Int) (up : URLParse) (fs : FS) (lm : LMState)
    (r : Request) (w : RW) : Entry :=
  if r.urlPath = "/dumpz" then .early w lm
  else
    match extractContext up fs r with
    | .error e => .early (errorHeader fs "" w e) lm
    | .ok ctx =>
      match ctx.cond with
      | some c =>
        let rr := c.EvalS (fsETag fs) t ctx.p lm
        if !rr.1 then .early (w.writeHeader 412) rr.2
        else .dispatch ctx rr.2
      | none => .dispatch ctx lm

/-- The status of an early response, if the entry phase produced one. -/
def entryStatus : Entry → Option Nat
  | .early w _ => some (finalStatus w)
  | .dispatch _ _ => none

/-- A trivial filesystem: resolution succeeds, nothing exists. -/
def fsTriv : FS :=
  { forPath := fun p => .ok p,
    parent := fun p => p,
    lookup := fun _ => .error (.wdav ErrorNotFound),
    remove := fun _ => none,
    recursiveRemove := fun _ => [],
    create := fun _ => none,
    copyTo := fun _ _ _ _ _ => .ok true }

/-- A request with an unterminated If header. -/
def reqBadIf : Request :=
  { method := "PUT", urlPath := "/x", host := "h", depthH := "",
    ifH := "(a", timeoutH := "", overwriteH := "", destination := "",
    lockTokenH := "" }

/-- C5, counterexample: an If header that fails to parse (here the
unterminated list `"(a"`) makes the dispatcher respond 500, not 400:
the parse error is a plain `fmt.Errorf` value, not a tagged
`webdav.Error`, so `errorHeader`'s type assertion fails and it falls to
the 500 branch. -/
theorem ifHeader_parse_error_not_400 :
    entryStatus (serveEntry 0 (fun _ => none) fsTriv [] reqBadIf emptyRW) = some 500 ∧
    entryStatus (serveEntry 0 (fun _ => none) fsTriv [] reqBadIf emptyRW) ≠ some 400 := by
  constructor
  · decide
  · decide

/-- C5, amended: for every request whose If header is present and fails
to parse, the dispatcher short-circuits with HTTP status 500. -/
theorem ifHeader_parse_error_gives_500 (t : Int) (up : URLParse) (fs : FS)
    (lm : LMState) (r : Request) (w : RW)
    (hdump : r.urlPath ≠ "/dumpz")
    (hfp : ∃ p, fs.forPath r.urlPath = .ok p)
    (hdepth : ∃ d, parseDepth r.depthH = .ok d)
    (hih : r.ifH ≠ "")
    (herr : ∃ m, (ParseIfTagM r.ifH).2 = some m)
    (hw : w.status = none) :
    entryStatus (serveEntry t up fs lm r w) = some 500 := by
  obtain ⟨p, hp⟩ := hfp
  obtain ⟨d, hd⟩ := hdepth
  obtain ⟨m, hm⟩ := herr
  have hctx : extractContext up fs r = .error (.plain m) := by
    unfold extractContext
    rw [hp, hd]
    unfold parseIfHeaderM
    rw [if_neg hih, hm]
  unfold serveEntry
  rw [if_neg hdump, hctx]
  show some (finalStatus (errorHeader fs "" w (GoErr.plain m))) = some 500
  rw [finalStatus_errorHeader fs "" w (.plain m) hw]
  rfl

/-- Witness for `ifHeader_parse_error_gives_500` on the header `"([b"`
(unterminated ETag bracket). -/
theorem ifHeader_parse_error_gives_500_witness :
    entryStatus (serveEntry 0 (fun _ => none) fsTriv []
      { method := "GET", urlPath := "/y", host := "h", depthH := "",
        ifH := "([b", timeoutH := "", overwriteH := "", destination := "",
        lockTokenH := "" } emptyRW) = some 500 :=
  ifHeader_parse_error_gives_500 0 (fun _ => none) fsTriv []
    { method := "GET", urlPath := "/y", host := "h", depthH := "",
      ifH := "([b", timeoutH := "", overwriteH := "", destination := "",
      lockTokenH := "" } emptyRW
    (by decide) ⟨"/y", rfl⟩ ⟨-1, rfl⟩ (by decide)
    ⟨"could not parse list: could not parse condition: EOF", by decide⟩ rfl

/-! ## Multistatus XML envelope (package `xml`) -/

def hexDigitCh (n : Nat) : Char :=
  if n < 10 then Char.ofNat ('0'.toNat + n)
  else Char.ofNat ('A'.toNat + (n - 10))

def urlAllowedCh (c : Char) : Bool :=
  ('a' ≤ c ∧ c ≤ 'z') ∨ ('A' ≤ c ∧ c ≤ 'Z') ∨ ('0' ≤ c ∧ c ≤ '9') ∨
  c ∈ ['-', '.', '_', '~', '$', '&', '+', ',', '/', ';', ':', '=', '@', '!', '\'', '(', ')', '*']

/-- Modelled from the spec: `path.UrlEncode` via `net/url`, a
percent-encoding that preserves slashes. -/
def urlEncodeM (s : String) : String :=
  String.mk ((s.toList.map (fun c =>
    if urlAllowedCh c then [c]
    else ['%', hexDigitCh (c.toNat / 16 % 16), hexDigitCh (c.toNat % 16)])).flatten)

/-- The error text placed in a `<status>` element (`Error.Error()`). -/
def goErrString (e : GoErr) : String :=
  match e with
  | .wdav we => toString we.code ++ " : " ++ we.text
  | .plain m => m

/-- A `<response>` child with an `<href>` and a `<status>` line (the
form produced by `MultiStatus.AddStatus`). -/
structure MSResponse where
  href : String
  status : String
deriving DecidableEq, Repr

/-- The `multistatus` envelope (property responses are not needed by
the claims; `AddStatus` responses carry the failing path and error). -/
structure MultiStatusM where
  responses : List MSResponse
deriving DecidableEq, Repr

def NewMultiStatus : MultiStatusM := { responses := [] }

/-- Embeds `MultiStatus.AddStatus`. -/
def addStatus (m : MultiStatusM) (href : String) (e : GoErr) : MultiStatusM :=
  { responses := m.responses ++ [{ href := urlEncodeM href, status := goErrString e }] }

/-- The constant `encoding/xml.Header`. -/
def xmlHeaderGo : String := "<?xml version=\"1.0\" encoding=\"UTF-8\"?>\n"

def marshalMSResponse (r : MSResponse) : String :=
  "<response><href>" ++ r.href ++ "</href><status>" ++ r.status ++ "</status></response>"

/-- Modelled from the spec: `encoding/xml.MarshalIndent` of the
envelope rooted at `<multistatus xmlns="DAV:">` (§4.8); the output
starts with the root start tag. -/
def marshalMultiStatus (m : MultiStatusM) : String :=
  "<multistatus xmlns=\"DAV:\">" ++
    String.join (m.responses.map marshalMSResponse) ++ "</multistatus>"

/-- Go `string(i)` applied to an int: a single-rune string. -/
def goStringOfInt (n : Nat) : String := String.mk [Char.ofNat n]

/-- Embeds `MultiStatus.Send`: marshal, prepend the XML header, then — in this
order — write status 207, set Content-Length, set Content-Type, and
write the body. -/
def SendMS (m : MultiStatusM) (w : RW) : RW :=
  let b := xmlHeaderGo ++ marshalMultiStatus m
  let w := w.writeHeader StatusMulti
  let w := w.setHeader "Content-Length" (goStringOfInt b.toList.length)
  let w := w.setHeader "Content-Type" "application/xml; charset=utf-8"
  w.write b

/-- C8: evaluating `Send` on a fresh response writer. The status is
indeed 207 and the body starts with the XML declaration followed by the
multistatus root, but the claimed `Content-Type` header is NOT on the
wire: `Send` calls `WriteHeader` before `Header().Set`, and the
net/http contract ignores header changes made after the status is
committed. -/
theorem send_multistatus_headers :
    finalStatus (SendMS NewMultiStatus emptyRW) = 207 ∧
    strHasPfx (SendMS NewMultiStatus emptyRW).body
      (xmlHeaderGo ++ "<multistatus xmlns=\"DAV:\">") = true ∧
    sentHeader (SendMS NewMultiStatus emptyRW) "Content-Type" = none := by
  refine ⟨by decide, by decide, by decide⟩

/-! ## DELETE (claim C6) -/

/-- Embeds `WebDAV.doDelete`: write authorization, then a single remove for a
non-directory (returning with no explicit status on success) or a
recursive remove for a directory (204, or a multistatus of per-path
errors). -/
def doDelete (t : Int) (fs : FS) (ctx : Ctx) (lm : LMState) (w : RW) :
    RW × LMState :=
  let cw := checkCanWrite t ctx.cond ctx.p lm
  if !cw.1 then (errorHeader fs ctx.p w (.wdav ErrorLocked), cw.2)
  else
    match fs.lookup ctx.p with
    | .error e => (errorHeader fs ctx.p w e, cw.2)
    | .ok f =>
      if !f.isDir then
        match fs.remove ctx.p with
        | some e => (errorHeader fs ctx.p w e, cw.2)
        | none => (w, cw.2)
      else
        let errs := fs.recursiveRemove ctx.p
        if errs.length = 0 then (w.writeHeader 204, cw.2)
        else
          (SendMS (errs.foldl (fun m pe => addStatus m pe.1 pe.2) NewMultiStatus) w, cw.2)

/-- A filesystem holding the single plain file `/foo`. -/
def fsFoo : FS :=
  { forPath := fun p => .ok p,
    parent := fun _ => "/",
    lookup := fun p =>
      if p = "/foo" then
        .ok { isDir := false, statRes := .ok { size := 2, created := 0, lastModified := 7 } }
      else .error (.wdav ErrorNotFound),
    remove := fun _ => none,
    recursiveRemove := fun _ => [],
    create := fun _ => none,
    copyTo := fun _ _ _ _ _ => .ok true }

def ctxFoo : Ctx :=
  { p := "/foo", depth := -1, timeout := nsecond, cond := none, overwrite := true }

/-- C6: a successful DELETE of an existing non-directory resource. The
handler returns without calling `WriteHeader`, so net/http defaults the
response status to 200, not the 204 the specification promises (the
directory branch does write 204 explicitly). -/
theorem doDelete_nondir_success_status :
    finalStatus (finalize (doDelete 0 fsFoo ctxFoo [] emptyRW).1) = 200 ∧
    finalStatus (finalize (doDelete 0 fsFoo ctxFoo [] emptyRW).1) ≠ 204 := by
  refine ⟨by decide, by decide⟩

/-! ## LOCK (claim C9) -/

/-- The outcome of the stdlib XML decode of a LOCK body (`lockinfo`):
end of input, a decode error, or the decoded scope/type flags and
owner. -/
inductive LockDecode where
  | eof
  | err (msg : String)
  | ok (exclusive shared write : Bool) (owner : String)
deriving DecidableEq, Repr

structure LockRequest where
  Owner : String
  Refresh : Bool
deriving DecidableEq, Repr

/-- Embeds `xml.ParseLock`: EOF means a refresh; otherwise the lock must be an
exclusive, non-shared write lock. -/
def ParseLockM : LockDecode → Except String LockRequest
  | .eof => .ok { Owner := "", Refresh := true }
  | .err m => .error m
  | .ok ex sh wr ow =>
    if !ex then .error "must be exclusive"
    else if sh then .error "must not be shared"
    else if !wr then .error "must be write"
    else .ok { Owner := ow, Refresh := false }

/-- Embeds `lock.toXml` (timeout remaining computed at time `t`). -/
def lockToXml (t : Int) (l : Lock) : String :=
  let ds := if l.depth < 0 then "infinity" else toString l.depth
  let remaining := (l.duration - (t - l.modified)) / nsecond
  "<activelock><locktype><write/></locktype>" ++
    "<lockscope><exclusive/></lockscope>" ++
    "<depth>" ++ ds ++ "</depth>" ++
    "<owner>" ++ l.owner ++ "</owner>" ++
    "<timeout>Second-" ++ toString remaining ++ "</timeout>" ++
    "<locktoken><href>" ++ l.token ++ "</href></locktoken>" ++
    "<lockroot><href>" ++ urlEncodeM l.path ++ "</href></lockroot></activelock>"

/-- Embeds `xml.SendProp` of the `lockdiscovery` property emitted by `doLock`. -/
def sendPropLockDiscovery (t : Int) (l : Lock) (w : RW) : RW :=
  let b := xmlHeaderGo ++ "<prop xmlns=\"DAV:\"><lockdiscovery>" ++
    lockToXml t l ++ "</lockdiscovery></prop>"
  let w := w.setHeader "Content-Length" (goStringOfInt b.toList.length)
  let w := w.setHeader "Content-Type" "application/xml; charset=utf-8"
  w.write b

/-- Embeds `WebDAV.doLock`. The fresh token for `createLock` is the `tok`
argument; `body` is the decoded request body. -/
def doLock (t : Int) (tok : String) (body : LockDecode) (fs : FS)
    (ctx : Ctx) (lm : LMState) (w : RW) : RW × LMState :=
  match ParseLockM body with
  | .error m => (errorHeader fs ctx.p w (.wdav (ErrorBadLock.withCause m)), lm)
  | .ok req =>
    match fs.lookup (fs.parent ctx.p) with
    | .error _ => (errorHeader fs ctx.p w (.wdav ErrorMissingParent), lm)
    | .ok _ =>
      let acquired : (Option Lock × LMState) × Option GoErr :=
        if req.Refresh then
          match ctx.cond with
          | none => ((none, lm), some (.wdav ErrorBadLock))
          | some c =>
            if !(c.GetSingleState).2 then ((none, lm), some (.wdav ErrorBadLock))
            else
              let rr := refreshLockOp t (c.GetSingleState).1 ctx.p ctx.timeout lm
              match rr.1 with
              | none => ((none, rr.2), some (.plain "refresh failed"))
              | some l => ((some l, rr.2), none)
        else
          let rr := createLockOp t tok req.Owner ctx.p ctx.depth ctx.timeout lm
          match rr.1 with
          | none => ((none, rr.2), some (.wdav ErrorLocked))
          | some l => ((some l, rr.2), none)
      match acquired.2, acquired.1.1 with
      | some e, _ => (errorHeader fs ctx.p w e, acquired.1.2)
      | none, none => (w, acquired.1.2)
      | none, some l =>
        let lm₁ := acquired.1.2
        let w :=
          if !req.Refresh then w.setHeader "Lock-Token" ("<" ++ l.token ++ ">")
          else w
        match fs.lookup ctx.p with
        | .error _ =>
          match fs.create ctx.p with
          | some e => (errorHeader fs ctx.p w e, unlockOp lm₁ l.token)
          | none => (sendPropLockDiscovery t l (w.writeHeader 201), lm₁)
        | .ok _ => (sendPropLockDiscovery t l (w.writeHeader 200), lm₁)

/-- A successful conflict scan keeps exactly the unexpired locks. -/
theorem createScan_ok_filter (t : Int) (p : String) (d : Int) (st : LMState)
    (hok : (createScan t p d st).2 = true) :
    (createScan t p d st).1 = st.filter (fun l => !l.expired t) := by
  induction st with
  | nil => rfl
  | cons l ls ih =>
    unfold createScan at hok ⊢
    by_cases he : l.expired t = true
    · simp only [he, if_true] at hok ⊢
      rw [ih hok]
      simp [List.filter_cons, he]
    · have he' : l.expired t = false := Bool.eq_false_iff.mpr he
      simp only [he', Bool.false_eq_true, if_false] at hok ⊢
      by_cases h1 : (Included p l.path l.depth).2 = true
      · simp [h1] at hok
      · have h1' := Bool.eq_false_iff.mpr h1
        simp only [h1', Bool.false_eq_true, if_false] at hok ⊢
        by_cases h2 : (Included l.path p d).2 = true
        · simp [h2] at hok
        · have h2' := Bool.eq_false_iff.mpr h2
          simp only [h2', Bool.false_eq_true, if_false] at hok ⊢
          rw [ih hok]
          simp [List.filter_cons, he']

theorem eraseTok_of_not_mem {st : LMState} {tok : String}
    (h : tok ∉ st.map Lock.token) : eraseTok st tok = st := by
  unfold eraseTok
  refine List.eraseP_of_forall_not ?_
  intro x hx hxx
  exact h (List.mem_map.mpr ⟨x, hx, by simpa using hxx⟩)

/-- A successful `createLock` with a fresh token prepends the new lock
to the sweep of the old table. -/
theorem createLockOp_success_state (t : Int) (tok ow p : String)
    (d dur : Int) (st : LMState) {l : Lock}
    (hok : (createLockOp t tok ow p d dur st).1 = some l)
    (hfresh : tok ∉ st.map Lock.token) :
    l.token = tok ∧
    (createLockOp t tok ow p d dur st).2 =
      l :: st.filter (fun x => !x.expired t) := by
  unfold createLockOp at hok ⊢
  by_cases hscan : (createScan t p d st).2 = true
  · simp only [hscan, if_true] at hok ⊢
    cases hok
    refine ⟨rfl, ?_⟩
    unfold putTok
    rw [createScan_ok_filter t p d st hscan]
    have hfresh' : tok ∉ (st.filter (fun x => !x.expired t)).map Lock.token := by
      intro hmem
      apply hfresh
      obtain ⟨x, hx, hxx⟩ := List.mem_map.mp hmem
      exact List.mem_map.mpr ⟨x, List.mem_of_mem_filter hx, hxx⟩
    rw [eraseTok_of_not_mem hfresh']
  · simp [hscan] at hok

/-- C9, counterexample: the lock manager state is not restored exactly.
Before the request the manager holds one expired lock; the failing LOCK
sweeps it away, so the post-error state is empty rather than equal to
the pre-request state. -/
def lkExpired : Lock :=
  { token := "old", depth := 0, owner := "o", duration := 20 * nsecond,
    modified := 0, path := "/e" }

def fsNew : FS :=
  { forPath := fun p => .ok p,
    parent := fun _ => "/",
    lookup := fun p =>
      if p = "/" then .ok { isDir := true, statRes := .ok { size := 0, created := 0, lastModified := 0 } }
      else .error (.wdav ErrorNotFound),
    remove := fun _ => none,
    recursiveRemove := fun _ => [],
    create := fun _ => some (.wdav ErrorConflict),
    copyTo := fun _ _ _ _ _ => .ok true }

def ctxNew : Ctx :=
  { p := "/new", depth := 0, timeout := 30 * nsecond, cond := none, overwrite := true }

theorem doLock_create_failure_not_identical :
    (doLock (100 * nsecond) "fresh" (LockDecode.ok true false true "own")
        fsNew ctxNew [lkExpired] emptyRW).2 = [] ∧
    [lkExpired] ≠ ([] : LMState) := by
  refine ⟨by decide, by decide⟩

/-- C9, amended: when the resource creation after a successful
non-refresh LOCK fails, the acquired lock is unlocked before the error
is written: the manager afterwards holds exactly the unexpired locks of
the pre-request state (the request's lazy sweep may have
garbage-collected expired entries), and the error's status is on the
wire. -/
theorem doLock_create_failure_releases_lock (t : Int) (tok : String)
    (body : LockDecode) (fs : FS) (ctx : Ctx) (lm : LMState) (w : RW)
    (req : LockRequest) (e : GoErr)
    (hparse : ParseLockM body = .ok req) (hrefresh : req.Refresh = false)
    (hparent : ∃ f, fs.lookup (fs.parent ctx.p) = .ok f)
    (hok : ((createLockOp t tok req.Owner ctx.p ctx.depth ctx.timeout lm).1).isSome = true)
    (hfresh : tok ∉ lm.map Lock.token)
    (hlook : ∃ e₀, fs.lookup ctx.p = .error e₀)
    (hcreate : fs.create ctx.p = some e)
    (hw : w.status = none) :
    (doLock t tok body fs ctx lm w).2 = lm.filter (fun x => !x.expired t) ∧
    tok ∉ ((doLock t tok body fs ctx lm w).2).map Lock.token ∧
    finalStatus (doLock t tok body fs ctx lm w).1 = errCode e := by
  obtain ⟨f, hpar⟩ := hparent
  obtain ⟨e₀, hlk⟩ := hlook
  cases hcr : (createLockOp t tok req.Owner ctx.p ctx.depth ctx.timeout lm).1 with
  | none =>
    rw [hcr] at hok
    cases hok
  | some l =>
    obtain ⟨htok, hstate⟩ :=
      createLockOp_success_state t tok req.Owner ctx.p ctx.depth ctx.timeout lm hcr hfresh
    have hres : (doLock t tok body fs ctx lm w).2 = lm.filter (fun x => !x.expired t) ∧
        finalStatus (doLock t tok body fs ctx lm w).1 = errCode e := by
      unfold doLock
      rw [hparse]
      simp only [hpar, hrefresh, hcr, hlk, hcreate, Bool.false_eq_true,
        if_false, Bool.not_false, if_true]
      constructor
      · show unlockOp (createLockOp t tok req.Owner ctx.p ctx.depth ctx.timeout lm).2 l.token =
          lm.filter (fun x => !x.expired t)
        rw [hstate]
        unfold unlockOp eraseTok
        rw [List.eraseP_cons]
        have : (l.token == l.token) = true := by simp
        rw [this]
        simp only [cond_true]
      · show finalStatus (errorHeader fs ctx.p
            (RW.setHeader w "Lock-Token" ("<" ++ l.token ++ ">")) e) = errCode e
        refine finalStatus_errorHeader fs ctx.p _ e ?_
        unfold RW.setHeader
        rw [hw]
        simp [hw]
    refine ⟨hres.1, ?_, hres.2⟩
    rw [hres.1]
    intro hmem
    apply hfresh
    obtain ⟨x, hx, hxx⟩ := List.mem_map.mp hmem
    exact List.mem_map.mpr ⟨x, List.mem_of_mem_filter hx, hxx⟩

/-- Witness for `doLock_create_failure_releases_lock` on the concrete
failing LOCK of `/new`. -/
theorem doLock_create_failure_releases_lock_witness :
    (doLock (100 * nsecond) "fresh" (LockDecode.ok true false true "own")
        fsNew ctxNew [lkExpired] emptyRW).2 =
      [lkExpired].filter (fun x => !x.expired (100 * nsecond)) ∧
    "fresh" ∉ ((doLock (100 * nsecond) "fresh" (LockDecode.ok true false true "own")
        fsNew ctxNew [lkExpired] emptyRW).2).map Lock.token ∧
    finalStatus (doLock (100 * nsecond) "fresh" (LockDecode.ok true false true "own")
        fsNew ctxNew [lkExpired] emptyRW).1 = errCode (.wdav ErrorConflict) :=
  doLock_create_failure_releases_lock (100 * nsecond) "fresh"
    (LockDecode.ok true false true "own") fsNew ctxNew [lkExpired] emptyRW
    { Owner := "own", Refresh := false } (.wdav ErrorConflict)
    rfl rfl ⟨_, rfl⟩ (by decide) (by decide) ⟨_, rfl⟩ rfl rfl

/-! ## COPY and MOVE (claim C10) -/

/-- The body of `handleCopyOrMove` after the MOVE source check: parse
the Destination header, require its host to equal the request host,
authorize the destination, and invoke `CopyTo`. -/
def copyMoveRest (t : Int) (up : URLParse) (fs : FS) (ctx : Ctx)
    (r : Request) (move : Bool) (lm : LMState) (w : RW) : RW × LMState :=
  if r.destination = "" then (errorHeader fs ctx.p w (.wdav ErrorBadDest), lm)
  else
    match up r.destination with
    | none => (errorHeader fs ctx.p w (.wdav (ErrorBadDest.withCause "parse")), lm)
    | some durl =>
      if durl.host ≠ r.host then (errorHeader fs ctx.p w (.wdav ErrorBadHost), lm)
      else
        match fs.forPath durl.path with
        | .error _ => (errorHeader fs ctx.p w (.wdav (ErrorBadDest.withCause "forpath")), lm)
        | .ok dst =>
          let cw := checkCanWrite t ctx.cond dst lm
          if !cw.1 then (errorHeader fs ctx.p w (.wdav ErrorLocked), cw.2)
          else
            match fs.copyTo ctx.p dst ctx.overwrite move ctx.depth with
            | .error e => (errorHeader fs ctx.p w e, cw.2)
            | .ok newf =>
              if newf then (w.writeHeader 201, cw.2)
              else (w.writeHeader 204, cw.2)

/-- Embeds `WebDAV.handleCopyOrMove`: for MOVE, write authorization on the
source first (the check is not run for COPY). -/
def handleCopyOrMove (t : Int) (up : URLParse) (fs : FS) (ctx : Ctx)
    (r : Request) (move : Bool) (lm : LMState) (w : RW) : RW × LMState :=
  if move then
    let cw := checkCanWrite t ctx.cond ctx.p lm
    if !cw.1 then (errorHeader fs ctx.p w (.wdav ErrorLocked), cw.2)
    else copyMoveRest t up fs ctx r move cw.2 w
  else copyMoveRest t up fs ctx r move lm w

/-- C10: a COPY or MOVE whose Destination header parses as a relative
URI (empty host component) is answered 502 BadHost whenever the request
host is non-empty, because `durl.Host != r.Host`. -/
theorem relative_destination_bad_host (t : Int) (up : URLParse) (fs : FS)
    (ctx : Ctx) (r : Request) (move : Bool) (lm : LMState) (w : RW) (u : URLM)
    (hw : w.status = none)
    (hmove : move = true → ((checkCanWrite t ctx.cond ctx.p lm).1 = true))
    (hdest : r.destination ≠ "")
    (hup : up r.destination = some u) (hhost : u.host = "")
    (hreq : r.host ≠ "") :
    finalStatus (handleCopyOrMove t up fs ctx r move lm w).1 = 502 := by
  have hne : u.host ≠ r.host := by
    rw [hhost]
    intro hcon
    exact hreq hcon.symm
  have hrest : ∀ lm', finalStatus (copyMoveRest t up fs ctx r move lm' w).1 = 502 := by
    intro lm'
    unfold copyMoveRest
    rw [if_neg hdest]
    simp only [hup]
    rw [if_pos hne]
    show finalStatus (errorHeader fs ctx.p w (.wdav ErrorBadHost)) = 502
    rw [finalStatus_errorHeader fs ctx.p w (.wdav ErrorBadHost) hw]
    rfl
  unfold handleCopyOrMove
  cases move with
  | false =>
    simp only [Bool.false_eq_true, if_false]
    exact hrest lm
  | true =>
    have hcw := hmove rfl
    simp only [if_true, hcw, Bool.not_true, Bool.false_eq_true, if_false]
    exact hrest (checkCanWrite t ctx.cond ctx.p lm).2

/-- Witness for `relative_destination_bad_host`: COPY of `/src` with
the relative destination `/dst`. -/
theorem relative_destination_bad_host_witness :
    finalStatus (handleCopyOrMove 0 (fun s => some { host := "", path := s })
      fsTriv ctxFoo
      { method := "COPY", urlPath := "/src", host := "h", depthH := "",
        ifH := "", timeoutH := "", overwriteH := "", destination := "/dst",
        lockTokenH := "" }
      false [] emptyRW).1 = 502 :=
  relative_destination_bad_host 0 (fun s => some { host := "", path := s })
    fsTriv ctxFoo
    { method := "COPY", urlPath := "/src", host := "h", depthH := "",
      ifH := "", timeoutH := "", overwriteH := "", destination := "/dst",
      lockTokenH := "" }
    false [] emptyRW { host := "", path := "/dst" }
    rfl (fun hcon => by cases hcon) (by decide) rfl rfl (by decide)

end GoWebdav
